import Mathlib

/-!
Shallow embedding of `internal/engine/engine.go` from the graw repository:
the scheduling/dispatch engine (polling loop, capability-based bot dispatch,
thread-safe monitor registry, failure/continuation policy), together with
theorems checking the specification's claims against it.

Modelling conventions:
* Go `error` values are strings (their message); a nil error is `none`.
* Durations are natural numbers of nanoseconds, as in Go's `time.Duration`.
* Go's `container/list` elements are identified by unique ids allocated from
  a counter: `PushBack` appends a fresh id, `Remove(elem)` removes exactly
  that element.  Go's map is an association list with lookup / overwrite /
  delete by key.
* The network is oracled: the outcome of a monitor's `Update`, and of the
  external monitor constructor, are data of the model; the outcome of each
  polling pass inside `Run` is supplied by an event trace, and the choice the
  `select` statement makes each iteration (stop signal versus timer) is the
  head event of that trace.
-/

namespace Graw

/-- Go error values are modelled as their message string; `Option Err` with
`none` for Go's nil error is the result of a fallible call. -/
abbrev Err := String

/-- Model of a `monitor.Monitor` value (package `internal/monitor`, consumed
by the engine only through its `Update` contract).  `user` is the target
identifier the monitor was constructed for; `update` is the error (nil or
non-nil) that its `Update` method returns when a polling pass drives it, the
scrape and existence-check collaborators being oracled into the value. -/
structure Monitor where
  user : String
  update : Option Err
  deriving DecidableEq

/-- Capability view of the hosted bot value (the engine's `bot interface{}`
field); each field models one optional `botfaces` capability, with `none` or
`false` meaning the bot does not implement it.

* `setUp` — `botfaces.Loader`: `some r` means the capability is implemented
  and `SetUp()` returns `r`.
* `tearDown` — whether `botfaces.Tearer` is implemented (`TearDown()`
  returns nothing).
* `failurePolicy` — Modelled from the spec: the failure-policy capability
  (`botfaces.Failer`) is declared outside this tree; per the spec's contract
  it is, given the error, whether the engine should continue (`true` =
  continue, i.e. swallow the error).  The source call site reads
  `!(ok && !failer.Fail(err))`: the engine continues exactly when the
  capability is present and the bot elects to continue.
* `blockTimer` — `botfaces.BlockTimer`: the duration its `BlockTime()`
  method returns, indexed by the loop-iteration number at which it is
  queried, so that a bot changing its cadence at runtime is representable.
* `userHandler` — whether `botfaces.UserHandler` is implemented. -/
structure Bot where
  setUp : Option (Option Err)
  tearDown : Bool
  failurePolicy : Option (Err → Bool)
  blockTimer : Option (Nat → Nat)
  userHandler : Bool

/-- Model of the `Engine` struct.  `monitors` is the ordered collection of
(list-element id, monitor) pairs; `userMonitors` maps a username to the
list-element id the map currently references; `nextId` feeds fresh element
ids to `PushBack`.  `mkUserMonitor` — Modelled from the spec: the external
monitor-construction factory `monitor.UserMonitor` is outside this tree;
given a target identifier it returns a Monitor or a construction error (the
transport client and the bot's per-item callbacks are captured inside the
constructed monitor value).  The mutex is not modelled: each operation below
is the atomic effect of its locked region. -/
structure Engine where
  bot : Bot
  nextId : Nat
  monitors : List (Nat × Monitor)
  userMonitors : List (String × Nat)
  mkUserMonitor : String → Except Err Monitor

/-- Insertion into a Go map, modelled on an association list: overwrite the
entry for the key if present, otherwise append one. -/
def mapInsert (k : String) (v : Nat) : List (String × Nat) → List (String × Nat)
  | [] => [(k, v)]
  | p :: rest =>
    if p.1 = k then (k, v) :: rest else p :: mapInsert k v rest

/-- Lookup in a Go map, modelled on an association list. -/
def lookupUser (u : String) : List (String × Nat) → Option Nat
  | [] => none
  | p :: rest => if p.1 = u then some p.2 else lookupUser u rest

/-- Number of entries of the user map whose key is `u`. -/
def countKey (u : String) (m : List (String × Nat)) : Nat :=
  m.countP (fun p => p.1 = u)

/-- `Engine.WatchUser` (engine.go:64-91).  Probe the `UserHandler`
capability; absent, fail with the capability error and leave the engine
unchanged.  Construct the user monitor; on a construction error, return it
with the engine unchanged.  Otherwise, under the lock,
`e.userMonitors[user] = e.monitors.PushBack(mon)`: append a fresh element to
the ordered collection and overwrite the map entry to reference it. -/
def WatchUser (e : Engine) (user : String) : Option Err × Engine :=
  if e.bot.userHandler = false then
    (some "bot cannot handle user posts or comments", e)
  else
    match e.mkUserMonitor user with
    | Except.error err => (some err, e)
    | Except.ok mon =>
      (none, { e with
        nextId := e.nextId + 1,
        monitors := e.monitors ++ [(e.nextId, mon)],
        userMonitors := mapInsert user e.nextId e.userMonitors })

/-- `Engine.UnwatchUser` (engine.go:94-104).  Under the lock: if the user map
has an entry, remove the referenced element from the ordered collection and
delete the map entry; in either case return nil. -/
def UnwatchUser (e : Engine) (user : String) : Option Err × Engine :=
  match lookupUser user e.userMonitors with
  | some id =>
    (none, { e with
      monitors := e.monitors.filter (fun p => p.1 ≠ id),
      userMonitors := e.userMonitors.filter (fun p => p.1 ≠ user) })
  | none => (none, e)

/-- The snapshot taken at the head of `Engine.updateMonitors`
(engine.go:144-149): under the lock, copy the ordered collection, front to
back, into a plain sequence. -/
def snapshot (e : Engine) : List Monitor :=
  e.monitors.map Prod.snd

/-- The sequential update sweep of `Engine.updateMonitors`
(engine.go:151-169): drive each monitor's `Update` in order; stop at the
first non-nil error and return it.  The second component instruments the
sweep with the list of monitors whose `Update` was actually invoked, in
invocation order. -/
def passUpdates : List Monitor → Option Err × List Monitor
  | [] => (none, [])
  | m :: rest =>
    match m.update with
    | some err => (some err, [m])
    | none =>
      let next := passUpdates rest
      (next.1, m :: next.2)

/-- `Engine.updateMonitors` (engine.go:143-170): snapshot under the lock,
then sequentially update every monitor of the snapshot, returning the first
error (and, as instrumentation, the monitors invoked). -/
def updateMonitors (e : Engine) : Option Err × List Monitor :=
  passUpdates (snapshot e)

/-- Go's `time.Minute` in nanoseconds. -/
def timeMinute : Nat := 60 * 1000000000

/-- `defaultBlockTime = time.Minute / 30` (engine.go:17-21). -/
def defaultBlockTime : Nat := timeMinute / 30

/-- `Engine.blockTime` (engine.go:174-180): if the bot implements
`BlockTimer`, return its value (queried at loop iteration `i`); otherwise
fall back to `defaultBlockTime`. -/
def blockTime (bot : Bot) (i : Nat) : Nat :=
  match bot.blockTimer with
  | some bt => bt i
  | none => defaultBlockTime

/-- One outcome of the `select` statement of an iteration of `Run`'s loop
(engine.go:128-137): either the stop signal was received, or the interval
timer fired and the polling pass of that iteration returned the given
error (nil or non-nil). -/
inductive Event where
  | stopSig : Event
  | tick : Option Err → Event
  deriving DecidableEq

/-- Observable actions of a `Run` invocation, in order: the startup call,
the per-iteration wait with the interval used, a polling pass with its
result, the teardown call. -/
inductive Action where
  | setUpA : Action
  | waitA : Nat → Action
  | passA : Option Err → Action
  | tearDownA : Action
  deriving DecidableEq

/-- The loop of `Engine.Run` (engine.go:127-138), at iteration `i`,
consuming the trace of select outcomes.  Each iteration evaluates
`time.After(e.blockTime())` (a `waitA` action), then acts on the event: a
stop signal sets the stop flag and the loop ends returning nil; a timer tick
performs the polling pass (a `passA` action) and, on a non-nil error,
consults the failure policy — the loop continues only when the capability is
present and returns continue, and otherwise returns that exact error.  The
first component is `some r` when the loop exited with return value `r`, and
`none` when the trace was exhausted with the loop still running. -/
def runLoop (bot : Bot) : Nat → List Event → Option (Option Err) × List Action
  | _, [] => (none, [])
  | i, Event.stopSig :: _ =>
    (some none, [Action.waitA (blockTime bot i)])
  | i, Event.tick r :: rest =>
    match r with
    | none =>
      let next := runLoop bot (i + 1) rest
      (next.1, Action.waitA (blockTime bot i) :: Action.passA none :: next.2)
    | some err =>
      match bot.failurePolicy with
      | some f =>
        if f err then
          let next := runLoop bot (i + 1) rest
          (next.1,
            Action.waitA (blockTime bot i) :: Action.passA (some err) :: next.2)
        else
          (some (some err),
            [Action.waitA (blockTime bot i), Action.passA (some err)])
      | none =>
        (some (some err),
          [Action.waitA (blockTime bot i), Action.passA (some err)])

/-- The deferred epilogue of `Engine.Run`: when the loop has exited
(first component `some r`), the deferred `TearDown` runs — exactly when the
bot implements `Tearer` — and `Run` returns `r`; when the loop has not
exited, `Run` has not returned and no teardown has run. -/
def finishRun (bot : Bot) (lr : Option (Option Err) × List Action)
    (pre : List Action) : Option (Option Err) × List Action :=
  match lr with
  | (some r, acts) =>
    (some r, pre ++ acts ++ (if bot.tearDown then [Action.tearDownA] else []))
  | (none, acts) => (none, pre ++ acts)

/-- `Engine.Run` (engine.go:116-141).  If the bot implements `Loader`,
invoke `SetUp`; a non-nil error is returned immediately — before the
teardown defer is installed and before the loop.  Otherwise the teardown
defer is installed when `Tearer` is implemented, and the loop runs on the
event trace.  The first component is `some r` when `Run` returned `r`, and
`none` when the trace ended with `Run` still blocked in its loop. -/
def Run (bot : Bot) (events : List Event) : Option (Option Err) × List Action :=
  match bot.setUp with
  | some (some err) => (some (some err), [Action.setUpA])
  | some none => finishRun bot (runLoop bot 0 events) [Action.setUpA]
  | none => finishRun bot (runLoop bot 0 events) []

/-- A public registry-mutating operation: the only exported operations that
touch the ordered collection or the user map are `WatchUser` and
`UnwatchUser`. -/
inductive Op where
  | watch : String → Op
  | unwatch : String → Op

/-- Apply one public registry operation to the engine (the returned error is
discarded; only the registry effect matters here). -/
def applyOp (e : Engine) : Op → Engine
  | Op.watch u => (WatchUser e u).2
  | Op.unwatch u => (UnwatchUser e u).2

/-- Apply a sequence of public registry operations, oldest first. -/
def applyOps (ops : List Op) (e : Engine) : Engine :=
  ops.foldl applyOp e

/-- A bot implementing no capability at all. -/
def plainBot : Bot :=
  { setUp := none, tearDown := false, failurePolicy := none,
    blockTimer := none, userHandler := false }

/-- A bot whose failure policy always elects to continue. -/
def continueBot : Bot :=
  { setUp := none, tearDown := false,
    failurePolicy := some (fun _ => true), blockTimer := none,
    userHandler := false }

/-- A bot implementing startup (succeeding) and teardown. -/
def loadTearBot : Bot :=
  { setUp := some none, tearDown := true, failurePolicy := none,
    blockTimer := none, userHandler := false }

/-- A bot whose startup fails, and which also implements teardown. -/
def failLoadBot : Bot :=
  { setUp := some (some "load failed"), tearDown := true,
    failurePolicy := none, blockTimer := none, userHandler := false }

/-! ## Lemmas about the loop trace -/

/-- The loop body never performs a teardown: teardown only happens in the
deferred epilogue of `Run`. -/
theorem runLoop_no_tearDown (bot : Bot) :
    ∀ (evs : List Event) (i : Nat),
      Action.tearDownA ∉ (runLoop bot i evs).2 := by
  intro evs
  induction evs with
  | nil => intro i; simp [runLoop]
  | cons ev rest ih =>
    intro i
    cases ev with
    | stopSig => simp [runLoop]
    | tick r =>
      cases r with
      | none =>
        simp only [runLoop, List.mem_cons]
        push_neg
        exact ⟨by simp, by simp, ih (i + 1)⟩
      | some err =>
        cases hf : bot.failurePolicy with
        | none => simp [runLoop, hf]
        | some f =>
          by_cases hfe : f err
          · simp only [runLoop, hf, hfe, if_true, List.mem_cons]
            push_neg
            exact ⟨by simp, by simp, ih (i + 1)⟩
          · simp [runLoop, hf, hfe]

/-- The last element of a list ending in a teardown action is that
teardown action. -/
theorem getLast_concat_tearDown (pre acts : List Action) :
    (pre ++ acts ++ [Action.tearDownA]).getLast? = some Action.tearDownA := by
  rw [List.getLast?_append_cons]
  rfl

/-! ## Claims about the scheduling loop -/

/-- Claim C1: for every error returned by a polling pass inside `Run`, if
the bot implements the failure-policy capability and it elects to continue
on that error, the loop proceeds to the next iteration (the loop's result is
whatever the remaining iterations produce); if it elects to stop, or the
capability is absent, the loop returns that exact error. -/
theorem claim_C1 (bot : Bot) (i : Nat) (err : Err) (rest : List Event) :
    (∀ f, bot.failurePolicy = some f → f err = true →
      runLoop bot i (Event.tick (some err) :: rest) =
        ((runLoop bot (i + 1) rest).1,
          Action.waitA (blockTime bot i) ::
            Action.passA (some err) :: (runLoop bot (i + 1) rest).2)) ∧
    (bot.failurePolicy = none →
      runLoop bot i (Event.tick (some err) :: rest) =
        (some (some err),
          [Action.waitA (blockTime bot i), Action.passA (some err)])) ∧
    (∀ f, bot.failurePolicy = some f → f err = false →
      runLoop bot i (Event.tick (some err) :: rest) =
        (some (some err),
          [Action.waitA (blockTime bot i), Action.passA (some err)])) := by
  refine ⟨?_, ?_, ?_⟩
  · intro f hf hfe
    simp [runLoop, hf, hfe]
  · intro hf
    simp [runLoop, hf]
  · intro f hf hfe
    simp [runLoop, hf, hfe]

/-- Witness for C1: a concrete bot whose policy continues swallows a pass
error, and the loop result is that of the remaining (empty) trace. -/
theorem claim_C1_witness :
    runLoop continueBot 0 [Event.tick (some "boom")] =
      (none, [Action.waitA 2000000000, Action.passA (some "boom")]) :=
  (claim_C1 continueBot 0 "boom" []).1 (fun _ => true) rfl rfl

/-- Claim C5: when the bot implements teardown and startup did not fail,
every terminating run performs teardown exactly once, as the last action —
after the loop body has exited — on every exit path. -/
theorem claim_C5 (bot : Bot) (events : List Event) (r : Option Err)
    (ht : bot.tearDown = true)
    (hs : bot.setUp = none ∨ bot.setUp = some none)
    (hr : (Run bot events).1 = some r) :
    ((Run bot events).2).count Action.tearDownA = 1 ∧
      ((Run bot events).2).getLast? = some Action.tearDownA := by
  have hmem := runLoop_no_tearDown bot events 0
  rcases hlr : runLoop bot 0 events with ⟨res, acts⟩
  rw [hlr] at hmem
  have hcount : acts.count Action.tearDownA = 0 :=
    List.count_eq_zero.mpr hmem
  rcases hs with hs | hs <;>
    simp only [Run, hs, finishRun, hlr] at hr ⊢ <;>
    cases res with
    | none => simp at hr
    | some r' =>
      constructor
      · simp [ht, List.count_append, hcount, List.count_cons, List.count_nil]
      · simp only [ht, if_true]
        exact getLast_concat_tearDown _ acts

/-- Witness for C5: a concrete run that starts up, stops via the stop
signal, and tears down exactly once. -/
theorem claim_C5_witness :
    ((Run loadTearBot [Event.stopSig]).2).count Action.tearDownA = 1 :=
  (claim_C5 loadTearBot [Event.stopSig] none rfl (Or.inr rfl) rfl).1

/-- Claim C6: when the bot's startup capability returns a non-nil error,
`Run` returns that error immediately: no polling pass occurs and teardown is
not invoked (the teardown defer is only installed after successful
startup). -/
theorem claim_C6 (bot : Bot) (events : List Event) (err : Err)
    (h : bot.setUp = some (some err)) :
    Run bot events = (some (some err), [Action.setUpA]) ∧
      (∀ r, Action.passA r ∉ (Run bot events).2) ∧
      Action.tearDownA ∉ (Run bot events).2 := by
  simp [Run, h]

/-- Witness for C6: a concrete bot with failing startup. -/
theorem claim_C6_witness :
    Run failLoadBot [Event.tick none] =
      (some (some "load failed"), [Action.setUpA]) :=
  (claim_C6 failLoadBot [Event.tick none] "load failed" rfl).1

/-- Claim C7: when the loop's wait step consumes a stop signal, the loop
ends at once with return value nil: no polling pass is performed for that
signal, and — whatever the rest of the trace holds — no monitor update is
ever invoked again in that run; `Run` then returns nil. -/
theorem claim_C7 (bot : Bot) (i : Nat) (rest : List Event) :
    runLoop bot i (Event.stopSig :: rest) =
        (some none, [Action.waitA (blockTime bot i)]) ∧
      (∀ r, Action.passA r ∉ (runLoop bot i (Event.stopSig :: rest)).2) ∧
      (bot.setUp = none →
        (Run bot (Event.stopSig :: rest)).1 = some none) := by
  refine ⟨rfl, ?_, ?_⟩
  · intro r
    simp [runLoop]
  · intro hs
    simp [Run, hs, runLoop, finishRun]

/-- Witness for C7: a concrete stop-first run returns nil. -/
theorem claim_C7_witness :
    (Run plainBot [Event.stopSig]).1 = some none :=
  (claim_C7 plainBot 0 []).2.2 rfl

/-- Claim C10: each loop iteration begins by obtaining the wait interval
fresh from the bot's interval-override capability (the first action of the
iteration is the wait with `blockTime bot i`, the capability queried at this
iteration), and a bot without the capability always waits exactly
`timeMinute / 30` nanoseconds, the fixed default. -/
theorem claim_C10 (bot : Bot) (i : Nat) (ev : Event) (rest : List Event) :
    ((runLoop bot i (ev :: rest)).2).head? =
        some (Action.waitA (blockTime bot i)) ∧
      (bot.blockTimer = none →
        blockTime bot i = timeMinute / 30 ∧ blockTime bot i = 2000000000) := by
  constructor
  · cases ev with
    | stopSig => rfl
    | tick r =>
      cases r with
      | none => rfl
      | some err =>
        cases hf : bot.failurePolicy with
        | none => simp [runLoop, hf]
        | some f => by_cases hfe : f err <;> simp [runLoop, hf, hfe]
  · intro h
    simp [blockTime, h, defaultBlockTime, timeMinute]

/-- Witness for C10: the capability-free bot waits the default interval,
two seconds in nanoseconds. -/
theorem claim_C10_witness :
    ((runLoop plainBot 0 [Event.stopSig]).2).head? =
        some (Action.waitA 2000000000) ∧
      blockTime plainBot 0 = 2000000000 :=
  ⟨(claim_C10 plainBot 0 Event.stopSig []).1,
    ((claim_C10 plainBot 0 Event.stopSig []).2 rfl).2⟩

/-! ## Concrete registry fixtures -/

/-- A monitor whose update succeeds. -/
def okMon (u : String) : Monitor := { user := u, update := none }

/-- A monitor whose update fails with the given error. -/
def errMon (u : String) (msg : Err) : Monitor := { user := u, update := some msg }

/-- A bot implementing only the user-activity capability. -/
def userBot : Bot :=
  { setUp := none, tearDown := false, failurePolicy := none,
    blockTimer := none, userHandler := true }

/-- A concrete engine with three watched monitors, the second of which
fails its update. -/
def passEngine : Engine :=
  { bot := userBot, nextId := 3,
    monitors := [(0, okMon "a"), (1, errMon "b" "boom"), (2, okMon "c")],
    userMonitors := [("a", 0), ("b", 1), ("c", 2)],
    mkUserMonitor := fun u => Except.ok (okMon u) }

/-- A concrete engine around a bot lacking every capability. -/
def noCapEngine : Engine :=
  { bot := plainBot, nextId := 0, monitors := [], userMonitors := [],
    mkUserMonitor := fun u => Except.ok (okMon u) }

/-- A concrete engine with the user-activity capability and no watches. -/
def freshEngine : Engine :=
  { bot := userBot, nextId := 0, monitors := [], userMonitors := [],
    mkUserMonitor := fun u => Except.ok (okMon u) }

/-! ## Lemmas about the polling pass -/

/-- When every monitor before position k succeeds and the monitor at
position k fails, the sweep returns that error having invoked exactly the
first k+1 monitors, in order. -/
theorem passUpdates_first_err (ms : List Monitor) :
    ∀ (k : Nat) (hk : k < ms.length) (err : Err),
      (∀ (i : Nat) (hi : i < ms.length), i < k → (ms.get ⟨i, hi⟩).update = none) →
      (ms.get ⟨k, hk⟩).update = some err →
      passUpdates ms = (some err, ms.take (k + 1)) := by
  induction ms with
  | nil =>
    intro k hk
    simp at hk
  | cons m rest ih =>
    intro k hk err hbefore hkerr
    cases k with
    | zero =>
      have hm : m.update = some err := hkerr
      simp [passUpdates, hm]
    | succ k =>
      have h0 : m.update = none :=
        hbefore 0 (by simp) (Nat.succ_pos k)
      have hk' : k < rest.length := by
        simp only [List.length_cons] at hk
        omega
      have hrest : passUpdates rest = (some err, rest.take (k + 1)) := by
        refine ih k hk' err ?_ hkerr
        intro i hi hik
        exact hbefore (i + 1)
          (by simp only [List.length_cons]; omega)
          (Nat.succ_lt_succ hik)
      simp [passUpdates, h0, hrest]

/-- When every monitor of the sweep succeeds, the sweep returns nil having
invoked them all. -/
theorem passUpdates_all_ok (ms : List Monitor)
    (h : ∀ m ∈ ms, m.update = none) : passUpdates ms = (none, ms) := by
  induction ms with
  | nil => rfl
  | cons m rest ih =>
    have hm : m.update = none := h m (by simp)
    have hrest := ih (fun m' hm' => h m' (by simp [hm']))
    simp [passUpdates, hm, hrest]

/-- Claim C4: a polling pass drives the snapshot's monitors sequentially in
insertion order; if the monitor at position k returns the first non-nil
error, the pass invokes no monitor after position k (exactly the first k+1
monitors of the snapshot are invoked) and returns that error; if every
update returns nil, the pass returns nil having invoked them all. -/
theorem claim_C4 (e : Engine) :
    (∀ (k : Nat) (hk : k < (snapshot e).length) (err : Err),
      (∀ (i : Nat) (hi : i < (snapshot e).length), i < k →
        ((snapshot e).get ⟨i, hi⟩).update = none) →
      ((snapshot e).get ⟨k, hk⟩).update = some err →
      updateMonitors e = (some err, (snapshot e).take (k + 1))) ∧
    ((∀ m ∈ snapshot e, m.update = none) →
      updateMonitors e = (none, snapshot e)) := by
  constructor
  · intro k hk err hb hke
    exact passUpdates_first_err (snapshot e) k hk err hb hke
  · intro h
    exact passUpdates_all_ok (snapshot e) h

/-- Witness for C4: on the concrete three-monitor engine whose second
monitor fails, the pass returns that error having invoked only the first
two monitors. -/
theorem claim_C4_witness :
    updateMonitors passEngine =
      (some "boom", [okMon "a", errMon "b" "boom"]) :=
  (claim_C4 passEngine).1 1 (by decide) "boom"
    (fun i hi hik => by
      have hi0 : i = 0 := by omega
      subst hi0
      rfl)
    rfl

/-- Claim C8: `WatchUser` on a bot lacking the user-activity capability
returns the capability error and leaves the engine (ordered collection and
user map) unchanged; and when the capability is present but the monitor
constructor fails, `WatchUser` returns that construction error, again with
the engine unchanged. -/
theorem claim_C8 (e : Engine) (u : String) :
    (e.bot.userHandler = false →
      WatchUser e u = (some "bot cannot handle user posts or comments", e)) ∧
    (∀ err, e.bot.userHandler = true → e.mkUserMonitor u = Except.error err →
      WatchUser e u = (some err, e)) := by
  constructor
  · intro h
    simp [WatchUser, h]
  · intro err hh hc
    simp [WatchUser, hh, hc]

/-- Witness for C8: watching a user on the capability-free engine fails
with the capability error and the engine is unchanged. -/
theorem claim_C8_witness :
    WatchUser noCapEngine "alice" =
      (some "bot cannot handle user posts or comments", noCapEngine) :=
  (claim_C8 noCapEngine "alice").1 rfl

/-- After deleting every entry with key u, a lookup of u finds nothing. -/
theorem lookupUser_filter_ne (u : String) (m : List (String × Nat)) :
    lookupUser u (m.filter (fun p => !(p.1 = u))) = none := by
  induction m with
  | nil => rfl
  | cons p rest ih =>
    by_cases h : p.1 = u
    · simp [List.filter_cons, h, ih]
    · simp [List.filter_cons, h, lookupUser, ih]

/-- Claim C9: `UnwatchUser` never errors — whether or not the user is
watched — and is idempotent: a second consecutive `UnwatchUser` of the same
user returns nil and leaves the registry exactly as the first call left
it. -/
theorem claim_C9 (e : Engine) (u : String) :
    (UnwatchUser e u).1 = none ∧
      UnwatchUser (UnwatchUser e u).2 u = (none, (UnwatchUser e u).2) := by
  cases hl : lookupUser u e.userMonitors with
  | none =>
    constructor
    · simp [UnwatchUser, hl]
    · simp [UnwatchUser, hl]
  | some id =>
    constructor
    · simp [UnwatchUser, hl]
    · simp [UnwatchUser, hl, lookupUser_filter_ne]

/-! ## Lemmas about WatchUser, UnwatchUser and the user map -/

/-- Successful `WatchUser`: with the capability present and the constructor
succeeding, the call returns nil, appends a fresh element to the ordered
collection and overwrites the user-map entry to reference it. -/
theorem WatchUser_ok (e : Engine) (u : String) (mon : Monitor)
    (hh : e.bot.userHandler = true)
    (hc : e.mkUserMonitor u = Except.ok mon) :
    WatchUser e u =
      (none, { e with
        nextId := e.nextId + 1,
        monitors := e.monitors ++ [(e.nextId, mon)],
        userMonitors := mapInsert u e.nextId e.userMonitors }) := by
  simp [WatchUser, hh, hc]

/-- `UnwatchUser` of a watched user: remove the referenced element from the
ordered collection, delete the map entry, and return nil. -/
theorem UnwatchUser_found (e : Engine) (u : String) (id : Nat)
    (hl : lookupUser u e.userMonitors = some id) :
    UnwatchUser e u =
      (none, { e with
        monitors := e.monitors.filter (fun p => p.1 ≠ id),
        userMonitors := e.userMonitors.filter (fun p => p.1 ≠ u) }) := by
  simp [UnwatchUser, hl]

/-- Inserting key u into a map holding at most one entry for u leaves
exactly one entry for u. -/
theorem countKey_mapInsert (u : String) (v : Nat) (m : List (String × Nat)) :
    countKey u m ≤ 1 → countKey u (mapInsert u v m) = 1 := by
  induction m with
  | nil =>
    intro h
    simp [mapInsert, countKey]
  | cons p rest ih =>
    intro h
    by_cases hp : p.1 = u
    · simp only [mapInsert]
      rw [if_pos hp]
      unfold countKey at h ⊢
      rw [List.countP_cons] at h ⊢
      simp [hp] at h ⊢
      exact h
    · simp only [mapInsert]
      rw [if_neg hp]
      have h' : countKey u rest ≤ 1 := by
        unfold countKey at h ⊢
        rw [List.countP_cons] at h
        simp [hp] at h
        exact h
      have hrest := ih h'
      unfold countKey at hrest ⊢
      rw [List.countP_cons]
      simp [hp, hrest]

/-- Looking up u right after inserting u finds the inserted value. -/
theorem lookupUser_mapInsert (u : String) (v : Nat) (m : List (String × Nat)) :
    lookupUser u (mapInsert u v m) = some v := by
  induction m with
  | nil => simp [mapInsert, lookupUser]
  | cons p rest ih =>
    by_cases hp : p.1 = u
    · simp only [mapInsert]
      rw [if_pos hp]
      simp [lookupUser]
    · simp only [mapInsert]
      rw [if_neg hp]
      simp only [lookupUser]
      rw [if_neg hp]
      exact ih

/-- Every entry of the map after an insertion is the inserted pair or an
entry of the original map. -/
theorem mem_mapInsert (k : String) (v : Nat) (m : List (String × Nat)) :
    ∀ p ∈ mapInsert k v m, p = (k, v) ∨ p ∈ m := by
  induction m with
  | nil =>
    intro p hp
    simp [mapInsert] at hp
    exact Or.inl hp
  | cons q rest ih =>
    intro p hp
    simp only [mapInsert] at hp
    by_cases hq : q.1 = k
    · rw [if_pos hq] at hp
      rcases List.mem_cons.mp hp with h | h
      · exact Or.inl h
      · exact Or.inr (List.mem_cons_of_mem q h)
    · rw [if_neg hq] at hp
      rcases List.mem_cons.mp hp with h | h
      · exact Or.inr (by simp [h])
      · rcases ih p h with h' | h'
        · exact Or.inl h'
        · exact Or.inr (List.mem_cons_of_mem q h')

/-- A successful lookup returns the value of some entry of the map. -/
theorem lookupUser_mem (u : String) (m : List (String × Nat)) :
    ∀ v, lookupUser u m = some v → ∃ p ∈ m, p.2 = v := by
  induction m with
  | nil =>
    intro v h
    simp [lookupUser] at h
  | cons q rest ih =>
    intro v h
    simp only [lookupUser] at h
    by_cases hq : q.1 = u
    · rw [if_pos hq] at h
      exact ⟨q, by simp, Option.some.inj h⟩
    · rw [if_neg hq] at h
      rcases ih v h with ⟨p, hp, hpv⟩
      exact ⟨p, by simp [hp], hpv⟩

/-! ## The orphaned-monitor invariant -/

/-- An element id with its monitor is orphaned in an engine when it is
present in the ordered collection, no user-map entry references it, and its
id is below the allocation counter (so no later element shares it). -/
def Orphaned (id : Nat) (mon : Monitor) (e : Engine) : Prop :=
  (id, mon) ∈ e.monitors ∧ (∀ p ∈ e.userMonitors, p.2 ≠ id) ∧ id < e.nextId

/-- `WatchUser` preserves orphanhood: it appends a fresh element and makes
the map reference that fresh element, never the orphan. -/
theorem Orphaned.watch {id : Nat} {mon : Monitor} {e : Engine}
    (h : Orphaned id mon e) (u : String) :
    Orphaned id mon (WatchUser e u).2 := by
  obtain ⟨h1, h2, h3⟩ := h
  simp only [WatchUser]
  by_cases hh : e.bot.userHandler = false
  · rw [if_pos hh]
    exact ⟨h1, h2, h3⟩
  · rw [if_neg hh]
    cases hc : e.mkUserMonitor u with
    | error err => exact ⟨h1, h2, h3⟩
    | ok m =>
      refine ⟨?_, ?_, ?_⟩
      · exact List.mem_append_left _ h1
      · intro p hp
        rcases mem_mapInsert u e.nextId e.userMonitors p hp with hpe | hpm
        · rw [hpe]
          exact Nat.ne_of_gt h3
        · exact h2 p hpm
      · exact Nat.lt_succ_of_lt h3

/-- `UnwatchUser` preserves orphanhood: it removes only the element the user
map references, which is never the orphan. -/
theorem Orphaned.unwatch {id : Nat} {mon : Monitor} {e : Engine}
    (h : Orphaned id mon e) (u : String) :
    Orphaned id mon (UnwatchUser e u).2 := by
  obtain ⟨h1, h2, h3⟩ := h
  cases hl : lookupUser u e.userMonitors with
  | none =>
    simp only [UnwatchUser, hl]
    exact ⟨h1, h2, h3⟩
  | some rid =>
    simp only [UnwatchUser, hl]
    have hrid : rid ≠ id := by
      obtain ⟨p, hp, hpv⟩ := lookupUser_mem u e.userMonitors rid hl
      rw [← hpv]
      exact h2 p hp
    refine ⟨?_, ?_, h3⟩
    · refine List.mem_filter.mpr ⟨h1, ?_⟩
      simpa using hrid.symm
    · intro p hp
      exact h2 p (List.mem_filter.mp hp).1

/-- No sequence of public registry operations can remove an orphaned
element from the ordered collection. -/
theorem Orphaned.opSeq {id : Nat} {mon : Monitor} :
    ∀ (ops : List Op) (e : Engine),
      Orphaned id mon e → Orphaned id mon (applyOps ops e) := by
  intro ops
  induction ops with
  | nil =>
    intro e h
    exact h
  | cons op rest ih =>
    intro e h
    have hstep : Orphaned id mon (applyOp e op) := by
      cases op with
      | watch u => exact h.watch u
      | unwatch u => exact h.unwatch u
    exact ih (applyOp e op) hstep

/-! ## Claims about re-watching a user -/

/-- Counterexample to C2 as stated: on the concrete fresh engine, two
`WatchUser "alice"` calls both succeed, yet the ordered monitor collection
then holds two elements — two monitors for "alice" — not one. -/
theorem claim_C2_counterexample :
    (WatchUser freshEngine "alice").1 = none ∧
      (WatchUser (WatchUser freshEngine "alice").2 "alice").1 = none ∧
      ((WatchUser (WatchUser freshEngine "alice").2 "alice").2).monitors.length
          = 2 ∧
      ((WatchUser (WatchUser freshEngine "alice").2 "alice").2).monitors.countP
          (fun p => p.2.user = "alice") = 2 :=
  ⟨rfl, rfl, rfl, rfl⟩

/-- Claim C2 (amended): re-watching an already-watched user overwrites the
user-map entry — after a second successful `WatchUser u` the map holds
exactly one entry for u, and it references the second call's element — but
the ordered monitor collection is appended to, not replaced: it has grown by
two elements across the two calls. -/
theorem claim_C2_amended (e : Engine) (u : String) (mon : Monitor)
    (hmap : countKey u e.userMonitors ≤ 1)
    (hh : e.bot.userHandler = true)
    (hc : e.mkUserMonitor u = Except.ok mon) :
    (WatchUser e u).1 = none ∧
      (WatchUser (WatchUser e u).2 u).1 = none ∧
      countKey u ((WatchUser (WatchUser e u).2 u).2).userMonitors = 1 ∧
      ((WatchUser (WatchUser e u).2 u).2).monitors.length =
        e.monitors.length + 2 ∧
      lookupUser u ((WatchUser (WatchUser e u).2 u).2).userMonitors =
        some (e.nextId + 1) := by
  have he1 : (WatchUser e u).2 = { e with
      nextId := e.nextId + 1,
      monitors := e.monitors ++ [(e.nextId, mon)],
      userMonitors := mapInsert u e.nextId e.userMonitors } := by
    rw [WatchUser_ok e u mon hh hc]
  have he2 : (WatchUser (WatchUser e u).2 u).2 = { e with
      nextId := e.nextId + 1 + 1,
      monitors := (e.monitors ++ [(e.nextId, mon)]) ++ [(e.nextId + 1, mon)],
      userMonitors :=
        mapInsert u (e.nextId + 1) (mapInsert u e.nextId e.userMonitors) } := by
    rw [he1]
    simp [WatchUser, hh, hc]
  refine ⟨?_, ?_, ?_, ?_, ?_⟩
  · rw [WatchUser_ok e u mon hh hc]
  · rw [he1]
    simp [WatchUser, hh, hc]
  · rw [he2]
    exact countKey_mapInsert u (e.nextId + 1) _
      (Nat.le_of_eq (countKey_mapInsert u e.nextId e.userMonitors hmap))
  · rw [he2]
    simp [List.length_append]
  · rw [he2]
    exact lookupUser_mapInsert u (e.nextId + 1) _

/-- Witness for the amended C2 on the concrete fresh engine. -/
theorem claim_C2_witness :
    countKey "alice"
        ((WatchUser (WatchUser freshEngine "alice").2 "alice").2).userMonitors
          = 1 ∧
      ((WatchUser (WatchUser freshEngine "alice").2 "alice").2).monitors.length
          = 2 :=
  ⟨(claim_C2_amended freshEngine "alice" (okMon "alice")
      (by decide) rfl rfl).2.2.1,
    (claim_C2_amended freshEngine "alice" (okMon "alice")
      (by decide) rfl rfl).2.2.2.1⟩

/-- Claim C3: after two successful `WatchUser u` calls followed by
`UnwatchUser u`, the element registered by the first call is still present
in the ordered collection — `WatchUser` appends without removing the prior
element and `UnwatchUser` removes only the element the user map currently
references — and the orphaned first monitor appears in every subsequent
polling-pass snapshot: no sequence of public registry operations ever
removes it. -/
theorem claim_C3 (e : Engine) (u : String) (mon : Monitor)
    (hwf : ∀ p ∈ e.userMonitors, p.2 < e.nextId)
    (hh : e.bot.userHandler = true)
    (hc : e.mkUserMonitor u = Except.ok mon) :
    (e.nextId, mon) ∈
        ((UnwatchUser (WatchUser (WatchUser e u).2 u).2 u).2).monitors ∧
      ∀ ops : List Op,
        (e.nextId, mon) ∈
            (applyOps ops
              ((UnwatchUser (WatchUser (WatchUser e u).2 u).2 u).2)).monitors ∧
          mon ∈ snapshot (applyOps ops
            ((UnwatchUser (WatchUser (WatchUser e u).2 u).2 u).2)) := by
  have he1 : (WatchUser e u).2 = { e with
      nextId := e.nextId + 1,
      monitors := e.monitors ++ [(e.nextId, mon)],
      userMonitors := mapInsert u e.nextId e.userMonitors } := by
    rw [WatchUser_ok e u mon hh hc]
  have he2 : (WatchUser (WatchUser e u).2 u).2 = { e with
      nextId := e.nextId + 1 + 1,
      monitors := (e.monitors ++ [(e.nextId, mon)]) ++ [(e.nextId + 1, mon)],
      userMonitors :=
        mapInsert u (e.nextId + 1) (mapInsert u e.nextId e.userMonitors) } := by
    rw [he1]
    simp [WatchUser, hh, hc]
  have hlook : lookupUser u
      (mapInsert u (e.nextId + 1) (mapInsert u e.nextId e.userMonitors)) =
        some (e.nextId + 1) :=
    lookupUser_mapInsert u (e.nextId + 1) _
  have he3 : (UnwatchUser (WatchUser (WatchUser e u).2 u).2 u).2 = { e with
      nextId := e.nextId + 1 + 1,
      monitors := ((e.monitors ++ [(e.nextId, mon)]) ++
        [(e.nextId + 1, mon)]).filter (fun p => p.1 ≠ (e.nextId + 1)),
      userMonitors :=
        (mapInsert u (e.nextId + 1)
          (mapInsert u e.nextId e.userMonitors)).filter
            (fun p => p.1 ≠ u) } := by
    rw [he2]
    simp [UnwatchUser, hlook]
  have horph : Orphaned e.nextId mon
      ((UnwatchUser (WatchUser (WatchUser e u).2 u).2 u).2) := by
    rw [he3]
    refine ⟨?_, ?_, ?_⟩
    · refine List.mem_filter.mpr ⟨by simp, ?_⟩
      simp
    · intro p hp
      have hpm := (List.mem_filter.mp hp).1
      have hpu : ¬(p.1 = u) := by
        have hcond := (List.mem_filter.mp hp).2
        simpa using hcond
      rcases mem_mapInsert _ _ _ p hpm with hpe | hpm1
      · exact absurd (by rw [hpe]) hpu
      · rcases mem_mapInsert _ _ _ p hpm1 with hpe | hpm2
        · exact absurd (by rw [hpe]) hpu
        · exact Nat.ne_of_lt (hwf p hpm2)
    · exact Nat.lt_succ_of_lt (Nat.lt_succ_self _)
  refine ⟨horph.1, ?_⟩
  intro ops
  have hseq := Orphaned.opSeq ops _ horph
  exact ⟨hseq.1, List.mem_map_of_mem Prod.snd hseq.1⟩

/-- Witness for C3: on the concrete fresh engine, the element of the first
watch is still in the collection after watch, watch, unwatch, and survives a
further watch of another user and unwatch of this one. -/
theorem claim_C3_witness :
    (0, okMon "alice") ∈
        ((UnwatchUser (WatchUser (WatchUser freshEngine "alice").2
          "alice").2 "alice").2).monitors ∧
      (0, okMon "alice") ∈
        (applyOps [Op.watch "bob", Op.unwatch "alice"]
          ((UnwatchUser (WatchUser (WatchUser freshEngine "alice").2
            "alice").2 "alice").2)).monitors :=
  ⟨(claim_C3 freshEngine "alice" (okMon "alice") (by simp [freshEngine])
      rfl rfl).1,
    ((claim_C3 freshEngine "alice" (okMon "alice") (by simp [freshEngine])
      rfl rfl).2 [Op.watch "bob", Op.unwatch "alice"]).1⟩

end Graw
